import Mathlib

/-!
Verification of the feller secret collection and synchronization engines.

The Go sources are embedded shallowly:
* `pkg/config` (`TellerConfig`, `Provider`, `PathMap`, `GetProvidersByKind`)
* `pkg/providers` (`CollectSecretsWithResult`, `collectGSMSecretsWithMissing`,
  `collectDotenvSecrets`, `loadEnvFile`)
* `cmd/github_secret_add.go` (`setGitHubSecrets`, `setGitHubSecretIfNeeded`,
  `setGitHubSecret`, `updateStats`, `promptForOverwrite`)

Go maps (`map[string]string`, `map[string]Provider`) are modelled by
association lists that record one concrete iteration order, since Go map
iteration order is unspecified; lookup-style maps are modelled as functions
`String → Option String`.  `os.Getenv` returns `""` both for unset and empty
variables, so the environment is a total function `String → String`.  The file
system is a function from path to `Option` of the file's lines (`none` models
an unreadable file).  Subprocess mutations (`gh secret set`) are modelled by a
success oracle.
-/

namespace Feller

/-! ## Maps and environments -/

/-- A Go `map[string]string` viewed through lookups. -/
abbrev Smap : Type := String → Option String

def Smap.empty : Smap := fun _ => none

def Smap.insert (m : Smap) (k v : String) : Smap :=
  fun q => if q = k then some v else m q

/-- Writing every entry of `m2` over `base`, as the Go merge loops
`for k, v := range providerSecrets { result.Secrets[k] = v }` do. -/
def Smap.merge (base m2 : Smap) : Smap :=
  fun q => match m2 q with
    | some v => some v
    | none => base q

/-- The process environment as seen through `os.Getenv`: unset variables read
as the empty string. -/
abbrev Env : Type := String → String

/-- The file system: a path maps to the lines of the file, or `none` when the
file cannot be opened or read. -/
abbrev FS : Type := String → Option (List String)

/-! ## Configuration model (pkg/config) -/

/-- `config.PathMap`.  `keys` is the `map[string]string` of
(sourceKey, outputKey) bindings, listed in one iteration order. -/
structure PathMap where
  id : String
  path : String
  keys : List (String × String)
deriving DecidableEq, Repr

/-- `config.Provider`. -/
structure Provider where
  kind : String
  maps : List PathMap
deriving DecidableEq, Repr

/-- A `TellerConfig`'s provider map, listed in one iteration order. -/
abbrev Config : Type := List (String × Provider)

/-- `TellerConfig.GetProvidersByKind`: keeps the providers of the given kind.
The Go function builds a fresh map; filtering the ambient iteration order
ranges over exactly the iteration orders that fresh map can exhibit. -/
def getProvidersByKind (cfg : Config) (kind : String) : Config :=
  cfg.filter (fun np => np.2.kind = kind)

/-! ## Environment-backed adapter (collectGSMSecretsWithMissing) -/

/-- `providers.MissingVariable`. -/
structure MissingVariable where
  variableName : String
  mappedTo : String
  provider : String
deriving DecidableEq, Repr

/-- The inner loop of `collectGSMSecretsWithMissing` over one path map's
key bindings. -/
def processGSMKeys (env : Env) (providerName : String)
    (kvs : List (String × String)) (acc : Smap × List MissingVariable) :
    Smap × List MissingVariable :=
  kvs.foldl (fun a p =>
    if env p.1 ≠ "" then (a.1.insert p.2 (env p.1), a.2)
    else (a.1, a.2 ++ [⟨p.1, p.2, providerName⟩])) acc

/-- `providers.collectGSMSecretsWithMissing`: path maps with empty bindings
are skipped (discovery mode is unsupported for this kind). -/
def collectGSMSecretsWithMissing (provider : Provider) (providerName : String)
    (env : Env) : Smap × List MissingVariable :=
  provider.maps.foldl (fun acc pm =>
    if pm.keys = [] then acc
    else processGSMKeys env providerName pm.keys acc) (Smap.empty, [])

/-! ## dotenv file parsing (loadEnvFile) -/

/-- `strings.TrimSpace`, right half: drop trailing whitespace. -/
def trimRightL : List Char → List Char
  | [] => []
  | c :: cs =>
    let r := trimRightL cs
    if r = [] ∧ c.isWhitespace then [] else c :: r

/-- `strings.TrimSpace` on the character list of a string. -/
def trimL (cs : List Char) : List Char :=
  trimRightL (cs.dropWhile Char.isWhitespace)

/-- `strings.SplitN(line, "=", 2)`: the pieces before and after the first
`'='`, or `none` when the line has no `'='` (the `len(parts) == 2` check). -/
def splitFirstEq : List Char → Option (List Char × List Char)
  | [] => none
  | c :: cs =>
    if c = '=' then some ([], cs)
    else match splitFirstEq cs with
      | none => none
      | some (l, r) => some (c :: l, r)

/-- The single quote character, `'\x27'`. -/
def sq : Char := Char.ofNat 39

/-- The quote-stripping step of `loadEnvFile`: when the value has length at
least two and begins and ends with the same double or single quote, drop that
one outer pair. -/
def stripQuotesL (cs : List Char) : List Char :=
  match cs with
  | c :: c2 :: cs2 =>
    let l := (c2 :: cs2).getLast (by simp)
    if (c = '"' ∧ l = '"') ∨ (c = sq ∧ l = sq) then (c2 :: cs2).dropLast
    else cs
  | _ => cs

/-- One line of `loadEnvFile`'s scanner loop: `none` when the line is skipped
(blank after trimming, comment, or without `'='`), otherwise the parsed
key/value pair. -/
def parseLine (line : String) : Option (String × String) :=
  let l := trimL line.data
  if l = [] then none
  else if l.head? = some '#' then none
  else match splitFirstEq l with
    | none => none
    | some (k, v) =>
      some (String.mk (trimL k), String.mk (stripQuotesL (trimL v)))

/-- One iteration of `loadEnvFile`'s scanner loop acting on the map. -/
def loadEnvStep (env : Smap) (l : String) : Smap :=
  match parseLine l with
  | some (k, v) => env.insert k v
  | none => env

/-- The pure body of `providers.loadEnvFile` on the file's lines: parsed
entries are written into the map in line order, later lines overwriting
earlier ones. -/
def loadEnvLines (lines : List String) : Smap :=
  lines.foldl loadEnvStep Smap.empty

/-- `providers.loadEnvFile`: an unreadable file is an error, otherwise the
lines are parsed. -/
def loadEnvFile (fs : FS) (filePath : String) : Except String Smap :=
  match fs filePath with
  | none => .error ("failed to open env file " ++ filePath)
  | some lines => .ok (loadEnvLines lines)

/-! ## File-backed adapter (collectDotenvSecrets) -/

/-- One path map of `collectDotenvSecrets`: discovery mode copies every file
entry; explicit bindings carry bound source keys to their output keys and
silently drop source keys absent from the file. -/
def dotenvMapStep (envFile : Smap) (pm : PathMap) (secrets : Smap) : Smap :=
  if pm.keys = [] then secrets.merge envFile
  else pm.keys.foldl (fun sec p =>
    match envFile p.1 with
    | some v => sec.insert p.2 v
    | none => sec) secrets

/-- The loop of `collectDotenvSecrets` over a provider's path maps, aborting
at the first unreadable file. -/
def collectDotenvGo (fs : FS) : List PathMap → Smap → Except String Smap
  | [], secrets => .ok secrets
  | pm :: rest, secrets =>
    match loadEnvFile fs pm.path with
    | .error e => .error ("failed to load env file " ++ pm.path ++ ": " ++ e)
    | .ok envFile => collectDotenvGo fs rest (dotenvMapStep envFile pm secrets)

/-- `providers.collectDotenvSecrets`. -/
def collectDotenvSecrets (fs : FS) (provider : Provider) : Except String Smap :=
  collectDotenvGo fs provider.maps Smap.empty

/-! ## Collection engine (CollectSecretsWithResult) -/

/-- `providers.CollectionResult`. -/
structure CollectionResult where
  secrets : Smap
  missingVars : List MissingVariable
  hasMissingVars : Bool

/-- One iteration of the Google-Secret-Manager loop of
`CollectSecretsWithResult`: the provider's missing variables are appended and
its secrets are merged over the running namespace. -/
def gsmGroupStep (env : Env) (acc : Smap × List MissingVariable)
    (np : String × Provider) : Smap × List MissingVariable :=
  let pr := collectGSMSecretsWithMissing np.2 np.1 env
  (acc.1.merge pr.1, acc.2 ++ pr.2)

/-- The Google-Secret-Manager loop of `CollectSecretsWithResult`. -/
def collectGSMGroup (env : Env) (provs : Config) : Smap × List MissingVariable :=
  provs.foldl (gsmGroupStep env) (Smap.empty, [])

/-- The dotenv loop of `CollectSecretsWithResult`: any adapter error aborts
the whole collection, returning no partial result. -/
def collectDotenvGroup (fs : FS) : Config → Smap → Except String Smap
  | [], secrets => .ok secrets
  | np :: rest, secrets =>
    match collectDotenvSecrets fs np.2 with
    | .error e => .error ("failed to collect dotenv secrets: " ++ e)
    | .ok ps => collectDotenvGroup fs rest (secrets.merge ps)

/-- `providers.CollectSecretsWithResult`: the environment-backed
(`google_secretmanager`) group is processed first, then the file-backed
(`dotenv`) group; `hasMissingVars` is `len(missing) > 0`. -/
def collectSecretsWithResult (cfg : Config) (env : Env) (fs : FS) :
    Except String CollectionResult :=
  let g := collectGSMGroup env (getProvidersByKind cfg "google_secretmanager")
  match collectDotenvGroup fs (getProvidersByKind cfg "dotenv") g.1 with
  | .error e => .error e
  | .ok secrets => .ok ⟨secrets, g.2, decide (g.2.length > 0)⟩

/-- The merged value a collection run assigns to one key (`none` also when
the run failed); used to compare runs at single keys. -/
def collectedAt (cfg : Config) (env : Env) (fs : FS) (k : String) : Option String :=
  match collectSecretsWithResult cfg env fs with
  | .ok r => r.secrets k
  | .error _ => none

/-! ## Synchronization engine (cmd/github_secret_add.go) -/

/-- `SecretOperationStats`. -/
structure SecretOperationStats where
  created : Nat
  updated : Nat
  skipped : Nat
  failed : Nat
deriving DecidableEq, Repr

/-- `ExistingSecrets`: presence sets for the repository scope and the
Dependabot scope. -/
structure ExistingSecrets where
  repository : String → Bool
  dependabot : String → Bool

/-- The package-level interactive confirmation flags `yesToAll` / `noToAll`,
fresh (both false) at the start of each run. -/
structure ConfirmState where
  yesToAll : Bool
  noToAll : Bool
deriving DecidableEq, Repr

/-- The command flags steering one synchronization run. -/
structure SyncFlags where
  force : Bool
  skipExisting : Bool
  confirmOverwrite : Bool
  dependabot : Bool
  dryRun : Bool
deriving DecidableEq, Repr

/-- `validateOverwriteFlags`: at most one of the three overwrite strategies
may be selected. -/
def validateOverwriteFlags (fl : SyncFlags) : Bool :=
  decide (((if fl.force then 1 else 0) + (if fl.skipExisting then 1 else 0)
    + (if fl.confirmOverwrite then 1 else 0) : Nat) ≤ 1)

/-- Outcome oracle for `gh secret set` invocations: whether setting the given
key in the given scope (`true` = Dependabot) succeeds. -/
abbrev MutOracle : Type := String → String → Bool → Bool

/-- `strings.ToLower(strings.TrimSpace(text))` applied to a prompt
response. -/
def normalizeResp (r : String) : String :=
  String.mk ((trimL r.data).map Char.toLower)

/-- The scanner loop inside `promptForOverwrite`: consumes responses until a
recognized one arrives; end of input is a cancellation (decline, no state
transition). -/
def promptLoop (st : ConfirmState) : List String → Bool × ConfirmState × List String
  | [] => (false, st, [])
  | r :: rest =>
    let resp := normalizeResp r
    if resp = "y" ∨ resp = "yes" then (true, st, rest)
    else if resp = "n" ∨ resp = "no" then (false, st, rest)
    else if resp = "ya" ∨ resp = "yes-to-all" then
      (true, { st with yesToAll := true }, rest)
    else if resp = "na" ∨ resp = "no-to-all" then
      (false, { st with noToAll := true }, rest)
    else promptLoop st rest

/-- `promptForOverwrite`: a sticky global decision short-circuits; dry-run
assumes yes; otherwise the user is prompted. -/
def promptForOverwrite (dryRun : Bool) (st : ConfirmState) (stdin : List String) :
    Bool × ConfirmState × List String :=
  if st.yesToAll then (true, st, stdin)
  else if st.noToAll then (false, st, stdin)
  else if dryRun then (true, st, stdin)
  else promptLoop st stdin

/-- `setGitHubSecret`: in dry-run the mutation is a no-op that always
succeeds, otherwise the `gh secret set` subprocess decides. -/
def setGitHubSecret (dryRun : Bool) (mutOk : MutOracle) (key value : String)
    (isDependabot : Bool) : Bool :=
  if dryRun then true else mutOk key value isDependabot

/-- `setGitHubSecretIfNeeded`: decides create / update / skip for one key in
one scope.  `none` models the `("", err)` return on mutation failure. -/
def setGitHubSecretIfNeeded (fl : SyncFlags) (mutOk : MutOracle)
    (existing : ExistingSecrets) (key value : String) (isDependabot : Bool)
    (st : ConfirmState) (stdin : List String) :
    Option String × ConfirmState × List String :=
  let existingSecrets := if isDependabot then existing.dependabot else existing.repository
  if existingSecrets key then
    if fl.skipExisting then (some "skipped", st, stdin)
    else if fl.confirmOverwrite then
      match promptForOverwrite fl.dryRun st stdin with
      | (false, st2, stdin2) => (some "skipped", st2, stdin2)
      | (true, st2, stdin2) =>
        if setGitHubSecret fl.dryRun mutOk key value isDependabot then
          (some "updated", st2, stdin2)
        else (none, st2, stdin2)
    else
      -- `force` and the default behavior both overwrite unconditionally
      if setGitHubSecret fl.dryRun mutOk key value isDependabot then
        (some "updated", st, stdin)
      else (none, st, stdin)
  else
    if setGitHubSecret fl.dryRun mutOk key value isDependabot then
      (some "created", st, stdin)
    else (none, st, stdin)

/-- `updateStats`. -/
def updateStats (stats : SecretOperationStats) (result : String) :
    SecretOperationStats :=
  if result = "created" then { stats with created := stats.created + 1 }
  else if result = "updated" then { stats with updated := stats.updated + 1 }
  else if result = "skipped" then { stats with skipped := stats.skipped + 1 }
  else stats

/-- The `(stats, err)` pair `setGitHubSecrets` returns: the Go function
returns the stats object in both the success and the error case, with the
failing key recorded in the error. -/
structure SyncResult where
  stats : SecretOperationStats
  err : Option String
deriving DecidableEq, Repr

/-- The loop of `setGitHubSecrets` over the secrets (in one Go map iteration
order): per key the repository scope, then the Dependabot scope when
requested; the first mutation failure increments `Failed` and returns the
accumulated stats together with the error. -/
def setGitHubSecretsLoop (fl : SyncFlags) (mutOk : MutOracle)
    (existing : ExistingSecrets) :
    List (String × String) → SecretOperationStats → ConfirmState → List String →
    SyncResult × ConfirmState × List String
  | [], stats, st, stdin => (⟨stats, none⟩, st, stdin)
  | (k, v) :: rest, stats, st, stdin =>
    match setGitHubSecretIfNeeded fl mutOk existing k v false st stdin with
    | (none, st1, stdin1) =>
      (⟨{ stats with failed := stats.failed + 1 }, some k⟩, st1, stdin1)
    | (some r, st1, stdin1) =>
      let stats1 := updateStats stats r
      if fl.dependabot then
        match setGitHubSecretIfNeeded fl mutOk existing k v true st1 stdin1 with
        | (none, st2, stdin2) =>
          (⟨{ stats1 with failed := stats1.failed + 1 }, some k⟩, st2, stdin2)
        | (some r2, st2, stdin2) =>
          setGitHubSecretsLoop fl mutOk existing rest (updateStats stats1 r2) st2 stdin2
      else
        setGitHubSecretsLoop fl mutOk existing rest stats1 st1 stdin1

/-- `setGitHubSecrets`: a full run from zero stats and a fresh confirmation
state, over the keys of the secrets map in one iteration order. -/
def setGitHubSecrets (fl : SyncFlags) (mutOk : MutOracle)
    (existing : ExistingSecrets) (secrets : List (String × String))
    (stdin : List String) : SyncResult :=
  (setGitHubSecretsLoop fl mutOk existing secrets ⟨0, 0, 0, 0⟩ ⟨false, false⟩ stdin).1

/-! ## Characterization helpers used by the theorems -/

/-- The namespace one provider contributes during collection (for file-backed
providers: assuming its files are readable; unreadable files contribute the
empty namespace here and are excluded by hypotheses where this is used). -/
def providerSecrets (env : Env) (fs : FS) (np : String × Provider) : Smap :=
  if np.2.kind = "dotenv" then
    match collectDotenvSecrets fs np.2 with
    | .ok s => s
    | .error _ => Smap.empty
  else (collectGSMSecretsWithMissing np.2 np.1 env).1

/-- The value bound to `k` by the last provider in processing order that
binds it. -/
def lastBinderVal (env : Env) (fs : FS) (provs : Config) (k : String) :
    Option String :=
  provs.foldl (fun acc np =>
    match providerSecrets env fs np k with
    | some v => some v
    | none => acc) none

/-- Invariant of a real (non-dry) `ConfirmEach` run whose every prompt
decision is yes: `noToAll` never set, and either `yesToAll` is already sticky
or the next response is `ya`. -/
def AllYesInv (st : ConfirmState) (stdin : List String) : Prop :=
  st.noToAll = false ∧ (st.yesToAll = true ∨ ∃ rest, stdin = "ya" :: rest)

/-- Componentwise order on the create/update/skip counters: the run only
ever increments them. -/
def StatsLE (a b : SecretOperationStats) : Prop :=
  a.created ≤ b.created ∧ a.updated ≤ b.updated ∧ a.skipped ≤ b.skipped

/-! ### Concrete instances for counterexamples and witnesses -/

/-- Environment for the order-dependence counterexample: `S1=1`, `S2=2`. -/
def envTwo : Env := fun k => if k = "S1" then "1" else if k = "S2" then "2" else ""

/-- Environment-backed provider binding `S1 → X`. -/
def provBindS1 : Provider := ⟨"google_secretmanager", [⟨"m1", "p", [("S1", "X")]⟩]⟩

/-- Environment-backed provider binding `S2 → X`. -/
def provBindS2 : Provider := ⟨"google_secretmanager", [⟨"m2", "p", [("S2", "X")]⟩]⟩

/-- A file system with no readable files (no file-backed provider consults
it in the scenarios that use it). -/
def fsNone : FS := fun _ => none

/-- The two iteration orders of the same two-provider configuration map. -/
def cfgOrder1 : Config := [("p1", provBindS1), ("p2", provBindS2)]

/-- See `cfgOrder1`. -/
def cfgOrder2 : Config := [("p2", provBindS2), ("p1", provBindS1)]

/-- Remote state where every key already exists in both scopes. -/
def existAll : ExistingSecrets := ⟨fun _ => true, fun _ => true⟩

/-- Remote state where no key exists yet in either scope. -/
def existNone : ExistingSecrets := ⟨fun _ => false, fun _ => false⟩

/-- Mutation oracle that fails exactly on key `B`. -/
def mutFailB : MutOracle := fun k _ _ => !(k == "B")

/-- All flags off: the default overwrite behavior, real run. -/
def flagsDefault : SyncFlags := ⟨false, false, false, false, false⟩

/-- `--confirm-overwrite`, real run. -/
def flagsConfirm : SyncFlags := ⟨false, false, true, false, false⟩

/-! ## Lemmas about trimming and line splitting -/

theorem trimRightL_cons_of_not_ws {c : Char} (h : c.isWhitespace = false)
    (cs : List Char) : trimRightL (c :: cs) = c :: trimRightL cs := by
  simp [trimRightL, h]

theorem mem_of_mem_trimRightL {x : Char} :
    ∀ {cs : List Char}, x ∈ trimRightL cs → x ∈ cs := by
  intro cs
  induction cs with
  | nil => simp [trimRightL]
  | cons c cs ih =>
    simp only [trimRightL]
    split
    · simp
    · intro h
      rcases List.mem_cons.mp h with h | h
      · simp [h]
      · exact List.mem_cons_of_mem _ (ih h)

theorem mem_of_mem_trimL {x : Char} {cs : List Char} (h : x ∈ trimL cs) :
    x ∈ cs :=
  (List.dropWhile_sublist _).mem (mem_of_mem_trimRightL h)

theorem splitFirstEq_eq_none {cs : List Char} (h : '=' ∉ cs) :
    splitFirstEq cs = none := by
  induction cs with
  | nil => rfl
  | cons c cs ih =>
    simp only [List.mem_cons, not_or] at h
    simp only [splitFirstEq]
    rw [if_neg (fun hc => h.1 hc.symm), ih h.2]

theorem splitFirstEq_append {xs : List Char} (h : '=' ∉ xs) (ys : List Char) :
    splitFirstEq (xs ++ '=' :: ys) = some (xs, ys) := by
  induction xs with
  | nil => simp [splitFirstEq]
  | cons c cs ih =>
    simp only [List.mem_cons, not_or] at h
    simp only [List.cons_append, splitFirstEq, List.append_eq]
    rw [if_neg (fun hc => h.1 hc.symm), ih h.2]

theorem trimRightL_append_of_ne_nil {ys : List Char} (h : trimRightL ys ≠ [])
    (xs : List Char) : trimRightL (xs ++ ys) = xs ++ trimRightL ys := by
  induction xs with
  | nil => simp
  | cons c cs ih =>
    rw [List.cons_append]
    show (if trimRightL (cs ++ ys) = [] ∧ c.isWhitespace then []
      else c :: trimRightL (cs ++ ys)) = (c :: cs) ++ trimRightL ys
    rw [ih, if_neg (fun hc => h (List.append_eq_nil.mp hc.1).2), List.cons_append]

theorem trimRightL_eq_cons (vcs : List Char) :
    trimRightL ('=' :: vcs) = '=' :: trimRightL vcs :=
  trimRightL_cons_of_not_ws (by decide) vcs

theorem trimL_split (kcs vcs : List Char) :
    trimL (kcs ++ '=' :: vcs) =
      kcs.dropWhile Char.isWhitespace ++ '=' :: trimRightL vcs := by
  unfold trimL
  rw [List.dropWhile_append]
  by_cases hk : (kcs.dropWhile Char.isWhitespace).isEmpty
  · rw [if_pos hk, List.isEmpty_iff.mp hk, List.nil_append,
      List.dropWhile_cons_of_neg (by decide), trimRightL_eq_cons]
  · rw [if_neg hk, trimRightL_append_of_ne_nil (by rw [trimRightL_eq_cons]; simp),
      trimRightL_eq_cons]

theorem trimL_dropWhile (kcs : List Char) :
    trimL (kcs.dropWhile Char.isWhitespace) = trimL kcs := by
  unfold trimL
  rw [List.dropWhile_idempotent]

theorem dropWhile_trimRightL (cs : List Char) :
    (trimRightL cs).dropWhile Char.isWhitespace =
      trimRightL (cs.dropWhile Char.isWhitespace) := by
  induction cs with
  | nil => rfl
  | cons c cs ih =>
    by_cases hw : c.isWhitespace
    · rw [List.dropWhile_cons_of_pos hw]
      by_cases hn : trimRightL cs = []
      · have hz : trimRightL (c :: cs) = [] := by simp [trimRightL, hn, hw]
        rw [hz, ← ih, hn]
      · rw [show trimRightL (c :: cs) = c :: trimRightL cs by
          simp only [trimRightL]; rw [if_neg (fun h => hn h.1)]]
        rw [List.dropWhile_cons_of_pos hw, ih]
    · have hw' : c.isWhitespace = false := by simpa using hw
      rw [List.dropWhile_cons_of_neg (by simp [hw']),
        trimRightL_cons_of_not_ws hw',
        List.dropWhile_cons_of_neg (by simp [hw'])]

theorem trimRightL_idem (cs : List Char) :
    trimRightL (trimRightL cs) = trimRightL cs := by
  induction cs with
  | nil => rfl
  | cons c cs ih =>
    by_cases hn : trimRightL cs = [] ∧ c.isWhitespace
    · simp [trimRightL, hn.1, hn.2]
    · rw [show trimRightL (c :: cs) = c :: trimRightL cs by
        simp only [trimRightL]; rw [if_neg hn]]
      rw [show trimRightL (c :: trimRightL cs) = c :: trimRightL (trimRightL cs) by
        simp only [trimRightL]; rw [if_neg (by rw [ih]; exact hn)]]
      rw [ih]

theorem trimL_trimRightL (cs : List Char) : trimL (trimRightL cs) = trimL cs := by
  unfold trimL
  rw [dropWhile_trimRightL, trimRightL_idem]

/-- `stripQuotesL` against the spec's description: when the trimmed value is
wrapped in a single matching pair of double or single quotes at both ends
(and has length at least 2), exactly that one outer pair is removed;
otherwise the value is unchanged. -/
theorem stripQuotesL_eq (cs : List Char) :
    stripQuotesL cs =
      if 2 ≤ cs.length ∧ ((cs.head? = some '"' ∧ cs.getLast? = some '"')
          ∨ (cs.head? = some sq ∧ cs.getLast? = some sq))
      then (cs.drop 1).dropLast else cs := by
  match cs with
  | [] => simp [stripQuotesL]
  | [c] => simp [stripQuotesL]
  | c :: c2 :: cs2 =>
    have hne : c2 :: cs2 ≠ [] := by simp
    have hlast : (c :: c2 :: cs2).getLast? = some ((c2 :: cs2).getLast hne) := by
      rw [List.getLast?_eq_getLast (c :: c2 :: cs2) (by simp), List.getLast_cons hne]
    simp only [stripQuotesL, List.length_cons, List.head?_cons, hlast,
      List.drop_succ_cons, List.drop_zero]
    by_cases hq : (c = '"' ∧ (c2 :: cs2).getLast hne = '"')
        ∨ (c = sq ∧ (c2 :: cs2).getLast hne = sq)
    · rw [if_pos hq, if_pos]
      refine ⟨by omega, ?_⟩
      rcases hq with ⟨h1, h2⟩ | ⟨h1, h2⟩
      · exact Or.inl ⟨by rw [h1], by rw [h2]⟩
      · exact Or.inr ⟨by rw [h1], by rw [h2]⟩
    · rw [if_neg hq, if_neg]
      intro ⟨_, hc⟩
      rcases hc with ⟨h1, h2⟩ | ⟨h1, h2⟩
      · exact hq (Or.inl ⟨by injection h1, by injection h2⟩)
      · exact hq (Or.inr ⟨by injection h1, by injection h2⟩)

theorem parseLine_of_trim_nil {s : String} (h : trimL s.data = []) :
    parseLine s = none := by
  simp [parseLine, h]

theorem parseLine_comment {s : String} {cs : List Char} (h : s.data = '#' :: cs) :
    parseLine s = none := by
  have ht : trimL s.data = '#' :: trimRightL cs := by
    rw [h]
    unfold trimL
    rw [List.dropWhile_cons_of_neg (by decide), trimRightL_cons_of_not_ws (by decide)]
  simp [parseLine, ht]

theorem parseLine_no_eq {s : String} (h : '=' ∉ s.data) : parseLine s = none := by
  have hs : splitFirstEq (trimL s.data) = none :=
    splitFirstEq_eq_none (fun hm => h (mem_of_mem_trimL hm))
  unfold parseLine
  by_cases h1 : trimL s.data = []
  · simp [h1]
  · by_cases h2 : (trimL s.data).head? = some '#'
    · simp [h1, h2]
    · simp [h1, h2, hs]

/-- `parseLine` on a line with an `'='`: the line is split at its first
`'='`, key and value are whitespace-trimmed, and one outer quote pair is
stripped from the value. -/
theorem parseLine_split (kcs vcs : List Char) (hk : '=' ∉ kcs)
    (hcomment : (trimL (kcs ++ '=' :: vcs)).head? ≠ some '#') :
    parseLine (String.mk (kcs ++ '=' :: vcs)) =
      some (String.mk (trimL kcs), String.mk (stripQuotesL (trimL vcs))) := by
  have hdata : (String.mk (kcs ++ '=' :: vcs)).data = kcs ++ '=' :: vcs := rfl
  have ht := trimL_split kcs vcs
  have hnn : trimL (kcs ++ '=' :: vcs) ≠ [] := by
    rw [ht]
    intro hz
    exact absurd (List.append_eq_nil.mp hz).2 (by simp)
  have hsplit : splitFirstEq (trimL (kcs ++ '=' :: vcs)) =
      some (kcs.dropWhile Char.isWhitespace, trimRightL vcs) := by
    rw [ht]
    exact splitFirstEq_append
      (fun hm => hk ((List.dropWhile_sublist _).mem hm)) _
  unfold parseLine
  rw [hdata]
  rw [if_neg hnn, if_neg hcomment, hsplit]
  simp only [trimL_dropWhile, trimL_trimRightL]

/-- Claim C7: the file parser skips blank lines, lines beginning with `#`,
and lines without `=`; remaining lines are split on the first `=`, key and
value are whitespace-trimmed, and exactly one outer pair of matching double
or single quotes is stripped from the value (no recursion, no escapes); in
particular `FOO="bar baz"` parses to key `FOO`, value `bar baz`. -/
theorem C7_env_file_line_parsing :
    (∀ s : String, trimL s.data = [] → parseLine s = none) ∧
    (∀ (s : String) (cs : List Char), s.data = '#' :: cs → parseLine s = none) ∧
    (∀ s : String, '=' ∉ s.data → parseLine s = none) ∧
    (∀ kcs vcs : List Char, '=' ∉ kcs →
        (trimL (kcs ++ '=' :: vcs)).head? ≠ some '#' →
        parseLine (String.mk (kcs ++ '=' :: vcs)) =
          some (String.mk (trimL kcs), String.mk (stripQuotesL (trimL vcs)))) ∧
    (∀ cs : List Char, stripQuotesL cs =
        if 2 ≤ cs.length ∧ ((cs.head? = some '"' ∧ cs.getLast? = some '"')
            ∨ (cs.head? = some sq ∧ cs.getLast? = some sq))
        then (cs.drop 1).dropLast else cs) ∧
    parseLine "FOO=\"bar baz\"" = some ("FOO", "bar baz") ∧
    parseLine "Q=\"\"inner\"\"" = some ("Q", "\"inner\"") :=
  ⟨fun _ h => parseLine_of_trim_nil h,
    fun _ _ h => parseLine_comment h,
    fun _ h => parseLine_no_eq h,
    fun kcs vcs hk hc => parseLine_split kcs vcs hk hc,
    stripQuotesL_eq, by decide, by decide⟩

/-- Witness for C7: a concrete application of the splitting conjunct. -/
theorem C7_env_file_line_parsing_witness :
    parseLine (String.mk (['F', 'O', 'O'] ++ '=' :: ['1'])) =
      some (String.mk (trimL ['F', 'O', 'O']),
        String.mk (stripQuotesL (trimL ['1']))) :=
  C7_env_file_line_parsing.2.2.2.1 ['F', 'O', 'O'] ['1'] (by decide) (by decide)

theorem loadEnvFold_no_key {k : String} :
    ∀ (ls : List String) (m : Smap),
      (∀ l ∈ ls, ∀ p : String × String, parseLine l = some p → p.1 ≠ k) →
      (ls.foldl loadEnvStep m) k = m k := by
  intro ls
  induction ls with
  | nil => intro m _; rfl
  | cons l ls ih =>
    intro m h
    rw [List.foldl_cons, ih _ (fun l' hl' => h l' (List.mem_cons_of_mem _ hl'))]
    cases hp : parseLine l with
    | none => simp [loadEnvStep, hp]
    | some p =>
      have hne : p.1 ≠ k := h l (List.mem_cons_self _ _) p hp
      cases p with
      | mk k' v' =>
        simp only [loadEnvStep, hp, Smap.insert]
        rw [if_neg (fun hq => hne hq.symm)]

/-- Claim C9: when several well-formed lines of one file bind the same key,
the last such line wins; duplicates are silently overwritten, and the parse
produces no error or report. -/
theorem C9_duplicate_key_last_wins (ls1 ls2 : List String) (l k v : String)
    (hl : parseLine l = some (k, v))
    (h2 : ∀ l' ∈ ls2, ∀ p : String × String, parseLine l' = some p → p.1 ≠ k) :
    loadEnvLines (ls1 ++ l :: ls2) k = some v := by
  unfold loadEnvLines
  rw [List.foldl_append, List.foldl_cons, loadEnvFold_no_key ls2 _ h2]
  simp [loadEnvStep, hl, Smap.insert]

/-- Witness for C9: `A=1` then `A=2` yields `A ↦ 2`. -/
theorem C9_duplicate_key_last_wins_witness :
    loadEnvLines (["A=1"] ++ "A=2" :: []) "A" = some "2" :=
  C9_duplicate_key_last_wins ["A=1"] [] "A=2" "A" "2" (by decide) (by simp)

/-! ## Lemmas about the environment-backed adapter -/

theorem processGSMKeys_cons (env : Env) (name : String) (p : String × String)
    (kvs : List (String × String)) (acc : Smap × List MissingVariable) :
    processGSMKeys env name (p :: kvs) acc =
      processGSMKeys env name kvs
        (if env p.1 ≠ "" then (acc.1.insert p.2 (env p.1), acc.2)
         else (acc.1, acc.2 ++ [⟨p.1, p.2, name⟩])) := rfl

theorem processGSMKeys_missing (env : Env) (name : String) :
    ∀ (kvs : List (String × String)) (acc : Smap × List MissingVariable),
      (processGSMKeys env name kvs acc).2 =
        acc.2 ++ (kvs.filter (fun p => env p.1 == "")).map
          (fun p => (⟨p.1, p.2, name⟩ : MissingVariable)) := by
  intro kvs
  induction kvs with
  | nil => intro acc; simp [processGSMKeys]
  | cons p kvs ih =>
    intro acc
    rw [processGSMKeys_cons]
    by_cases hp : env p.1 = ""
    · rw [if_neg (by simp [hp]), ih]
      simp [List.filter_cons, hp, List.append_assoc]
    · rw [if_pos hp, ih]
      simp [List.filter_cons, hp]

theorem processGSMKeys_fst_missing_irrelevant (env : Env) (name : String) :
    ∀ (kvs : List (String × String)) (m : Smap) (mv mv' : List MissingVariable),
      (processGSMKeys env name kvs (m, mv)).1 =
        (processGSMKeys env name kvs (m, mv')).1 := by
  intro kvs
  induction kvs with
  | nil => intro m mv mv'; rfl
  | cons p kvs ih =>
    intro m mv mv'
    rw [processGSMKeys_cons, processGSMKeys_cons]
    by_cases hp : env p.1 = ""
    · rw [if_neg (by simp [hp]), if_neg (by simp [hp])]
      exact ih m _ _
    · rw [if_pos hp, if_pos hp]
      exact ih _ _ _

theorem processGSMKeys_fst_erase (env : Env) (name s o : String)
    (hmiss : env s = "") :
    ∀ (kvs : List (String × String)) (m : Smap) (mv : List MissingVariable),
      (processGSMKeys env name (kvs.erase (s, o)) (m, mv)).1 =
        (processGSMKeys env name kvs (m, mv)).1 := by
  intro kvs
  induction kvs with
  | nil => intro m mv; rfl
  | cons p kvs ih =>
    intro m mv
    by_cases hp : p = (s, o)
    · rw [hp, List.erase_cons_head, processGSMKeys_cons]
      rw [if_neg (by simp [hmiss])]
      exact processGSMKeys_fst_missing_irrelevant env name kvs m mv _
    · rw [List.erase_cons_tail (by simp [hp]), processGSMKeys_cons,
        processGSMKeys_cons]
      by_cases he : env p.1 = ""
      · rw [if_neg (by simp [he])]
        exact ih _ _
      · rw [if_pos he]
        exact ih _ _

theorem missing_filter_count (env : Env) (name s o : String) (hmiss : env s = "") :
    ∀ kvs : List (String × String),
      ((kvs.filter (fun p => env p.1 == "")).map
          (fun p => (⟨p.1, p.2, name⟩ : MissingVariable))).count ⟨s, o, name⟩
        = kvs.count (s, o) := by
  intro kvs
  induction kvs with
  | nil => rfl
  | cons p kvs ih =>
    by_cases he : env p.1 = ""
    · rw [List.filter_cons_of_pos (by simp [he]), List.map_cons,
        List.count_cons, List.count_cons, ih]
      congr 1
      by_cases hp : p = (s, o)
      · rw [hp]
        simp
      · have h1 : ¬(s, o) = p := fun h => hp h.symm
        have h2 : ¬(⟨s, o, name⟩ : MissingVariable) = ⟨p.1, p.2, name⟩ := by
          intro h
          injection h with e1 e2 e3
          exact hp (Prod.ext e1.symm e2.symm)
        have h3 : ¬(p.1 = s ∧ p.2 = o) := fun hc => hp (Prod.ext hc.1 hc.2)
        simp [beq_iff_eq, h1, h2, h3, hp]
    · rw [List.filter_cons_of_neg (by simp [he]), List.count_cons, ih]
      have h1 : ¬(s, o) = p := by
        intro h
        exact he (by rw [← h]; exact hmiss)
      have h2 : ¬p = (s, o) := fun h => h1 h.symm
      simp [beq_iff_eq, h1, h2]

theorem count_pair_eq_one {s o : String} :
    ∀ kvs : List (String × String),
      (kvs.map Prod.fst).Nodup → (s, o) ∈ kvs → kvs.count (s, o) = 1 := by
  intro kvs
  induction kvs with
  | nil => intro _ h; cases h
  | cons p kvs ih =>
    intro hnd hmem
    rw [List.map_cons, List.nodup_cons] at hnd
    rw [List.count_cons]
    rcases List.mem_cons.mp hmem with h | h
    · have h1 : p.1 = s := by rw [← h]
      have hs : s ∉ kvs.map Prod.fst := h1 ▸ hnd.1
      have hnotmem : (s, o) ∉ kvs := fun hm => hs (List.mem_map_of_mem Prod.fst hm)
      rw [List.count_eq_zero.mpr hnotmem, ← h]
      simp
    · have hp1 : p.1 ≠ s := by
        intro he
        exact hnd.1 (by rw [he]; exact List.mem_map_of_mem Prod.fst h)
      have hne : (p == (s, o)) = false := by
        apply beq_eq_false_iff_ne.mpr
        intro hq
        exact hp1 (by rw [hq])
      rw [ih hnd.2 h, hne]
      simp

theorem collectGSM_single (kind i pth name : String)
    (kvs : List (String × String)) (env : Env) :
    collectGSMSecretsWithMissing ⟨kind, [⟨i, pth, kvs⟩]⟩ name env =
      processGSMKeys env name kvs (Smap.empty, []) := by
  by_cases h : kvs = []
  · subst h; rfl
  · simp [collectGSMSecretsWithMissing, h]

/-- Claim C6: for an environment-backed field map with non-empty bindings,
a binding whose source key reads as empty from the environment contributes
no entry to the secrets namespace (the namespace equals the one computed
with that binding removed) and appends exactly one MissingField citing that
source key, output key, and provider name. -/
theorem C6_missing_env_binding (idS pathS name s o : String)
    (kvs : List (String × String)) (env : Env)
    (hne : kvs ≠ []) (hmem : (s, o) ∈ kvs)
    (hnd : (kvs.map Prod.fst).Nodup) (hmiss : env s = "") :
    ((collectGSMSecretsWithMissing
        ⟨"google_secretmanager", [⟨idS, pathS, kvs⟩]⟩ name env).2).count
          ⟨s, o, name⟩ = 1 ∧
    (collectGSMSecretsWithMissing
        ⟨"google_secretmanager", [⟨idS, pathS, kvs⟩]⟩ name env).1 =
      (collectGSMSecretsWithMissing
        ⟨"google_secretmanager", [⟨idS, pathS, kvs.erase (s, o)⟩]⟩ name env).1 := by
  rw [collectGSM_single, collectGSM_single]
  constructor
  · rw [processGSMKeys_missing, List.nil_append, missing_filter_count env name s o hmiss]
    exact count_pair_eq_one kvs hnd hmem
  · exact (processGSMKeys_fst_erase env name s o hmiss kvs Smap.empty []).symm

/-- Witness for C6: one binding `S → O` with `S` unset. -/
theorem C6_missing_env_binding_witness :
    ((collectGSMSecretsWithMissing
        ⟨"google_secretmanager", [⟨"i", "p", [("S", "O")]⟩]⟩ "prov" (fun _ => "")).2).count
          ⟨"S", "O", "prov"⟩ = 1 ∧
    (collectGSMSecretsWithMissing
        ⟨"google_secretmanager", [⟨"i", "p", [("S", "O")]⟩]⟩ "prov" (fun _ => "")).1 =
      (collectGSMSecretsWithMissing
        ⟨"google_secretmanager", [⟨"i", "p", ([("S", "O")] : List (String × String)).erase ("S", "O")⟩]⟩
          "prov" (fun _ => "")).1 :=
  C6_missing_env_binding "i" "p" "prov" "S" "O" [("S", "O")] (fun _ => "")
    (by decide) (by decide) (by decide) rfl

/-! ## Characterizing a successful collection run -/

theorem gsmGroup_fst_lookup (env : Env) :
    ∀ (provs : Config) (acc : Smap × List MissingVariable) (k : String),
      ((provs.foldl (gsmGroupStep env) acc).1) k =
        provs.foldl (fun a np =>
          match (collectGSMSecretsWithMissing np.2 np.1 env).1 k with
          | some v => some v
          | none => a) (acc.1 k) := by
  intro provs
  induction provs with
  | nil => intro acc k; rfl
  | cons np provs ih =>
    intro acc k
    rw [List.foldl_cons, List.foldl_cons, ih]
    rfl

theorem dotenvGo_ok (fs : FS) :
    ∀ (maps : List PathMap) (sec : Smap),
      (∀ pm ∈ maps, (fs pm.path).isSome) →
      ∃ s, collectDotenvGo fs maps sec = .ok s := by
  intro maps
  induction maps with
  | nil => intro sec _; exact ⟨sec, rfl⟩
  | cons pm maps ih =>
    intro sec h
    obtain ⟨lines, hl⟩ := Option.isSome_iff_exists.mp (h pm (List.mem_cons_self _ _))
    obtain ⟨s, hs⟩ := ih (dotenvMapStep (loadEnvLines lines) pm sec)
      (fun pm' hm => h pm' (List.mem_cons_of_mem _ hm))
    exact ⟨s, by simp only [collectDotenvGo, loadEnvFile, hl]; exact hs⟩

theorem dotenvGroup_ok (fs : FS) (env : Env) :
    ∀ (provs : Config) (sec : Smap),
      (∀ np ∈ provs, np.2.kind = "dotenv") →
      (∀ np ∈ provs, ∀ pm ∈ np.2.maps, (fs pm.path).isSome) →
      ∃ s, collectDotenvGroup fs provs sec = .ok s ∧
        ∀ k, s k = provs.foldl (fun a np =>
          match providerSecrets env fs np k with
          | some v => some v
          | none => a) (sec k) := by
  intro provs
  induction provs with
  | nil => intro sec _ _; exact ⟨sec, rfl, fun k => rfl⟩
  | cons np provs ih =>
    intro sec hkind hread
    obtain ⟨ps, hps⟩ := dotenvGo_ok fs np.2.maps Smap.empty
      (hread np (List.mem_cons_self _ _))
    have hsec : collectDotenvSecrets fs np.2 = .ok ps := hps
    have hprov : providerSecrets env fs np = ps := by
      unfold providerSecrets
      rw [if_pos (hkind np (List.mem_cons_self _ _)), hsec]
    obtain ⟨s, hgo, hlook⟩ := ih (sec.merge ps)
      (fun np' hm => hkind np' (List.mem_cons_of_mem _ hm))
      (fun np' hm => hread np' (List.mem_cons_of_mem _ hm))
    refine ⟨s, ?_, ?_⟩
    · simp only [collectDotenvGroup, hsec]
      exact hgo
    · intro k
      rw [hlook k, List.foldl_cons, hprov]
      rfl

/-- A collection run with all file-backed sources readable succeeds, and its
merged namespace at each key is the file-group fold over the
environment-group result. -/
theorem collect_ok (cfg : Config) (env : Env) (fs : FS)
    (hread : ∀ np ∈ getProvidersByKind cfg "dotenv", ∀ pm ∈ np.2.maps,
      (fs pm.path).isSome) :
    ∃ r, collectSecretsWithResult cfg env fs = .ok r ∧
      (∀ k, r.secrets k =
        (getProvidersByKind cfg "dotenv").foldl (fun a np =>
          match providerSecrets env fs np k with
          | some v => some v
          | none => a)
          ((collectGSMGroup env (getProvidersByKind cfg "google_secretmanager")).1 k)) ∧
      r.missingVars =
        (collectGSMGroup env (getProvidersByKind cfg "google_secretmanager")).2 := by
  have hkind : ∀ np ∈ getProvidersByKind cfg "dotenv", np.2.kind = "dotenv" := by
    intro np hm
    have := List.of_mem_filter hm
    simpa using this
  obtain ⟨s, hgo, hlook⟩ := dotenvGroup_ok fs env (getProvidersByKind cfg "dotenv")
    (collectGSMGroup env (getProvidersByKind cfg "google_secretmanager")).1 hkind hread
  refine ⟨⟨s, (collectGSMGroup env (getProvidersByKind cfg "google_secretmanager")).2,
    decide ((collectGSMGroup env (getProvidersByKind cfg "google_secretmanager")).2.length > 0)⟩,
    ?_, hlook, rfl⟩
  unfold collectSecretsWithResult
  show (match collectDotenvGroup fs (getProvidersByKind cfg "dotenv")
      (collectGSMGroup env (getProvidersByKind cfg "google_secretmanager")).1 with
    | Except.error e => Except.error e
    | Except.ok secrets => Except.ok (⟨secrets,
        (collectGSMGroup env (getProvidersByKind cfg "google_secretmanager")).2,
        decide ((collectGSMGroup env
          (getProvidersByKind cfg "google_secretmanager")).2.length > 0)⟩ :
        CollectionResult)) = _
  rw [hgo]

/-! ## Collection: file group overrides environment group -/

/-- Claim C3: with an environment-backed provider binding `A → X` and a
file-backed provider binding `A → X`, where the file defines `A` and the
environment also defines `A` with a different value, collection succeeds and
`X` carries the file's value, in either iteration order of the two-provider
configuration map. -/
theorem C3_file_overrides_env (A X vFile i1 i2 p1 fpath n1 n2 : String)
    (env : Env) (fs : FS) (fileLines : List String) (cfg : Config)
    (henv : env A ≠ "") (hdiff : env A ≠ vFile)
    (hfile : loadEnvLines fileLines A = some vFile)
    (hfs : fs fpath = some fileLines)
    (hcfg : cfg = [(n1, ⟨"google_secretmanager", [⟨i1, p1, [(A, X)]⟩]⟩),
                   (n2, ⟨"dotenv", [⟨i2, fpath, [(A, X)]⟩]⟩)] ∨
            cfg = [(n2, ⟨"dotenv", [⟨i2, fpath, [(A, X)]⟩]⟩),
                   (n1, ⟨"google_secretmanager", [⟨i1, p1, [(A, X)]⟩]⟩)]) :
    ∃ r, collectSecretsWithResult cfg env fs = .ok r ∧ r.secrets X = some vFile := by
  have hps : providerSecrets env fs
      (n2, ⟨"dotenv", [⟨i2, fpath, [(A, X)]⟩]⟩) X = some vFile := by
    unfold providerSecrets
    rw [if_pos rfl]
    have hds : collectDotenvSecrets fs ⟨"dotenv", [⟨i2, fpath, [(A, X)]⟩]⟩ =
        .ok (dotenvMapStep (loadEnvLines fileLines) ⟨i2, fpath, [(A, X)]⟩ Smap.empty) := by
      simp only [collectDotenvSecrets, collectDotenvGo, loadEnvFile, hfs]
    rw [hds]
    simp only [dotenvMapStep]
    rw [if_neg (by simp)]
    simp [hfile, Smap.insert]
  have hread2 : ∀ np ∈ ([(n2, (⟨"dotenv", [⟨i2, fpath, [(A, X)]⟩]⟩ : Provider))] : Config),
      ∀ pm ∈ np.2.maps, (fs pm.path).isSome := by
    intro np hm pm hpm
    rw [List.mem_singleton] at hm
    subst hm
    rw [show ((n2, (⟨"dotenv", [⟨i2, fpath, [(A, X)]⟩]⟩ : Provider))).2.maps
        = [⟨i2, fpath, [(A, X)]⟩] from rfl, List.mem_singleton] at hpm
    subst hpm
    simp [hfs]
  rcases hcfg with hcfg | hcfg
  · subst hcfg
    have hbk : getProvidersByKind
        [(n1, ⟨"google_secretmanager", [⟨i1, p1, [(A, X)]⟩]⟩),
         (n2, ⟨"dotenv", [⟨i2, fpath, [(A, X)]⟩]⟩)] "dotenv"
        = [(n2, ⟨"dotenv", [⟨i2, fpath, [(A, X)]⟩]⟩)] := rfl
    obtain ⟨r, hr, hlook, _⟩ := collect_ok _ env fs (by rw [hbk]; exact hread2)
    refine ⟨r, hr, ?_⟩
    rw [hlook X, hbk, List.foldl_cons, List.foldl_nil]
    show (match providerSecrets env fs
        (n2, ⟨"dotenv", [⟨i2, fpath, [(A, X)]⟩]⟩) X with
      | some v => some v
      | none => _) = some vFile
    rw [hps]
  · subst hcfg
    have hbk : getProvidersByKind
        [(n2, ⟨"dotenv", [⟨i2, fpath, [(A, X)]⟩]⟩),
         (n1, ⟨"google_secretmanager", [⟨i1, p1, [(A, X)]⟩]⟩)] "dotenv"
        = [(n2, ⟨"dotenv", [⟨i2, fpath, [(A, X)]⟩]⟩)] := rfl
    obtain ⟨r, hr, hlook, _⟩ := collect_ok _ env fs (by rw [hbk]; exact hread2)
    refine ⟨r, hr, ?_⟩
    rw [hlook X, hbk, List.foldl_cons, List.foldl_nil]
    show (match providerSecrets env fs
        (n2, ⟨"dotenv", [⟨i2, fpath, [(A, X)]⟩]⟩) X with
      | some v => some v
      | none => _) = some vFile
    rw [hps]

/-- Witness for C3: env `A=1`, file `ENV` containing `A=5`, both binding
`A → X`; the merged namespace maps `X` to `5`. -/
theorem C3_file_overrides_env_witness :
    ∃ r, collectSecretsWithResult
      [("p1", ⟨"google_secretmanager", [⟨"i1", "q", [("A", "X")]⟩]⟩),
       ("p2", ⟨"dotenv", [⟨"i2", "ENV", [("A", "X")]⟩]⟩)]
      (fun k => if k = "A" then "1" else "")
      (fun p => if p = "ENV" then some ["A=5"] else none) = .ok r ∧
      r.secrets "X" = some "5" :=
  C3_file_overrides_env "A" "X" "5" "i1" "i2" "q" "ENV" "p1" "p2"
    (fun k => if k = "A" then "1" else "")
    (fun p => if p = "ENV" then some ["A=5"] else none)
    ["A=5"] _ (by decide) (by decide) (by decide) (by decide) (Or.inl rfl)

/-! ## Collection failure semantics -/

theorem dotenvGo_error_iff (fs : FS) :
    ∀ (maps : List PathMap) (sec : Smap),
      (∃ e, collectDotenvGo fs maps sec = .error e) ↔
        ∃ pm ∈ maps, fs pm.path = none := by
  intro maps
  induction maps with
  | nil => intro sec; simp [collectDotenvGo]
  | cons pm maps ih =>
    intro sec
    cases hp : fs pm.path with
    | none =>
      constructor
      · intro _
        exact ⟨pm, List.mem_cons_self _ _, hp⟩
      · intro _
        have he : collectDotenvGo fs (pm :: maps) sec =
            .error ("failed to load env file " ++ pm.path ++ ": "
              ++ ("failed to open env file " ++ pm.path)) := by
          simp only [collectDotenvGo, loadEnvFile, hp]
        exact ⟨_, he⟩
    | some lines =>
      rw [show collectDotenvGo fs (pm :: maps) sec
          = collectDotenvGo fs maps (dotenvMapStep (loadEnvLines lines) pm sec) by
        simp only [collectDotenvGo, loadEnvFile, hp]]
      rw [ih]
      constructor
      · intro ⟨pm', hm, hf⟩
        exact ⟨pm', List.mem_cons_of_mem _ hm, hf⟩
      · intro ⟨pm', hm, hf⟩
        rcases List.mem_cons.mp hm with h | h
        · subst h
          rw [hp] at hf
          cases hf
        · exact ⟨pm', h, hf⟩

theorem dotenvSecrets_error_iff (fs : FS) (p : Provider) :
    (∃ e, collectDotenvSecrets fs p = .error e) ↔
      ∃ pm ∈ p.maps, fs pm.path = none :=
  dotenvGo_error_iff fs p.maps Smap.empty

theorem dotenvGroup_error_iff (fs : FS) :
    ∀ (provs : Config) (sec : Smap),
      (∃ e, collectDotenvGroup fs provs sec = .error e) ↔
        ∃ np ∈ provs, ∃ pm ∈ np.2.maps, fs pm.path = none := by
  intro provs
  induction provs with
  | nil => intro sec; simp [collectDotenvGroup]
  | cons np provs ih =>
    intro sec
    cases hp : collectDotenvSecrets fs np.2 with
    | error e =>
      have hmem : ∃ pm ∈ np.2.maps, fs pm.path = none :=
        (dotenvSecrets_error_iff fs np.2).mp ⟨e, hp⟩
      constructor
      · intro _
        exact ⟨np, List.mem_cons_self _ _, hmem⟩
      · intro _
        have he : collectDotenvGroup fs (np :: provs) sec =
            .error ("failed to collect dotenv secrets: " ++ e) := by
          simp only [collectDotenvGroup, hp]
        exact ⟨_, he⟩
    | ok ps =>
      have hok : ¬∃ pm ∈ np.2.maps, fs pm.path = none := by
        intro hc
        obtain ⟨e, he⟩ := (dotenvSecrets_error_iff fs np.2).mpr hc
        rw [hp] at he
        cases he
      rw [show collectDotenvGroup fs (np :: provs) sec
          = collectDotenvGroup fs provs (sec.merge ps) by
        simp only [collectDotenvGroup, hp]]
      rw [ih]
      constructor
      · intro ⟨np', hm, hf⟩
        exact ⟨np', List.mem_cons_of_mem _ hm, hf⟩
      · intro ⟨np', hm, hf⟩
        rcases List.mem_cons.mp hm with h | h
        · subst h
          exact absurd hf hok
        · exact ⟨np', h, hf⟩

/-- Claim C8: collection returns an error exactly when some file-backed
provider's file is unreadable, and the `Except.error` return carries no
secrets result (the Go function returns `nil`); in particular, when every
file-backed file is readable, collection succeeds no matter which
environment-backed values are missing. -/
theorem C8_file_error_fatal_env_missing_not (cfg : Config) (env : Env) (fs : FS) :
    ((∃ e, collectSecretsWithResult cfg env fs = .error e) ↔
      ∃ np ∈ getProvidersByKind cfg "dotenv", ∃ pm ∈ np.2.maps,
        fs pm.path = none) ∧
    ((¬∃ np ∈ getProvidersByKind cfg "dotenv", ∃ pm ∈ np.2.maps,
        fs pm.path = none) →
      ∃ r, collectSecretsWithResult cfg env fs = .ok r) := by
  have hiff : (∃ e, collectSecretsWithResult cfg env fs = .error e) ↔
      ∃ np ∈ getProvidersByKind cfg "dotenv", ∃ pm ∈ np.2.maps,
        fs pm.path = none := by
    rw [← dotenvGroup_error_iff fs (getProvidersByKind cfg "dotenv")
      (collectGSMGroup env (getProvidersByKind cfg "google_secretmanager")).1]
    unfold collectSecretsWithResult
    cases hg : collectDotenvGroup fs (getProvidersByKind cfg "dotenv")
        (collectGSMGroup env (getProvidersByKind cfg "google_secretmanager")).1 with
    | error e => simp [hg]
    | ok s => simp [hg]
  refine ⟨hiff, fun hno => ?_⟩
  cases hc : collectSecretsWithResult cfg env fs with
  | error e => exact absurd (hiff.mp ⟨e, hc⟩) hno
  | ok r => exact ⟨r, rfl⟩

/-- Witness for C8: an unreadable file makes collection fail. -/
theorem C8_file_error_fatal_env_missing_not_witness :
    ∃ e, collectSecretsWithResult [("d", ⟨"dotenv", [⟨"i", "f", []⟩]⟩)]
      (fun _ => "") (fun _ => none) = .error e :=
  (C8_file_error_fatal_env_missing_not
      [("d", ⟨"dotenv", [⟨"i", "f", []⟩]⟩)] (fun _ => "") (fun _ => none)).1.mpr
    ⟨("d", ⟨"dotenv", [⟨"i", "f", []⟩]⟩), by decide, ⟨"i", "f", []⟩, by decide, rfl⟩

/-! ## Merge order: nondeterministic across runs, last processed wins -/

/-- Counterexample to claim C1: the same configuration map (the two lists are
permutations of each other, i.e. the same `map[string]Provider`) collected
under two Go map iteration orders yields different merged namespaces when two
environment-backed providers bind the same output key. -/
theorem C1_declared_order_counterexample :
    List.Perm cfgOrder1 cfgOrder2 ∧
    collectedAt cfgOrder1 envTwo fsNone "X" = some "2" ∧
    collectedAt cfgOrder2 envTwo fsNone "X" = some "1" ∧
    collectedAt cfgOrder1 envTwo fsNone "X" ≠
      collectedAt cfgOrder2 envTwo fsNone "X" :=
  ⟨List.Perm.swap ("p2", provBindS2) ("p1", provBindS1) [],
    by decide, by decide, by decide⟩

theorem foldl_congr_mem {α β : Type} {f g : β → α → β} :
    ∀ (l : List α) (b : β), (∀ x ∈ l, ∀ a, f a x = g a x) →
      l.foldl f b = l.foldl g b := by
  intro l
  induction l with
  | nil => intro b _; rfl
  | cons x l ih =>
    intro b h
    rw [List.foldl_cons, List.foldl_cons, h x (List.mem_cons_self _ _)]
    exact ih _ (fun y hy => h y (List.mem_cons_of_mem _ hy))

/-- Amended claim C1: relative to the order in which providers are actually
processed — the environment-backed group wholly before the file-backed group,
each group in its map iteration order — the merged namespace maps every key
to the value of the last processed provider binding it; the iteration order
within a group is not fixed by declaration, so merge results are not
deterministic across runs (see `C1_declared_order_counterexample`). -/
theorem C1_last_processed_wins (cfg : Config) (env : Env) (fs : FS)
    (hread : ∀ np ∈ getProvidersByKind cfg "dotenv", ∀ pm ∈ np.2.maps,
      (fs pm.path).isSome) :
    ∃ r, collectSecretsWithResult cfg env fs = .ok r ∧
      ∀ k, r.secrets k = lastBinderVal env fs
        (getProvidersByKind cfg "google_secretmanager" ++
          getProvidersByKind cfg "dotenv") k := by
  obtain ⟨r, hr, hlook, _⟩ := collect_ok cfg env fs hread
  refine ⟨r, hr, fun k => ?_⟩
  have hbase : (collectGSMGroup env (getProvidersByKind cfg "google_secretmanager")).1 k
      = (getProvidersByKind cfg "google_secretmanager").foldl
          (fun a np => match providerSecrets env fs np k with
            | some v => some v
            | none => a) none := by
    unfold collectGSMGroup
    rw [gsmGroup_fst_lookup]
    apply foldl_congr_mem
    intro np hm a
    have hkind : np.2.kind = "google_secretmanager" := by
      simpa using List.of_mem_filter hm
    unfold providerSecrets
    rw [if_neg (by rw [hkind]; decide)]
  rw [hlook k]
  unfold lastBinderVal
  rw [List.foldl_append, ← hbase]

/-- Witness for the amended C1: a configuration with no file-backed providers
trivially satisfies the readability hypothesis. -/
theorem C1_last_processed_wins_witness :
    ∃ r, collectSecretsWithResult cfgOrder1 envTwo fsNone = .ok r ∧
      ∀ k, r.secrets k = lastBinderVal envTwo fsNone
        (getProvidersByKind cfgOrder1 "google_secretmanager" ++
          getProvidersByKind cfgOrder1 "dotenv") k :=
  C1_last_processed_wins cfgOrder1 envTwo fsNone (by decide)

/-! ## Synchronization statistics invariants -/

theorem updateStats_failed (stats : SecretOperationStats) (r : String) :
    (updateStats stats r).failed = stats.failed := by
  unfold updateStats
  split_ifs <;> rfl

theorem statsLE_updateStats (stats : SecretOperationStats) (r : String) :
    StatsLE stats (updateStats stats r) := by
  unfold updateStats StatsLE
  split_ifs <;> simp

theorem statsLE_refl (s : SecretOperationStats) : StatsLE s s :=
  ⟨le_refl _, le_refl _, le_refl _⟩

theorem statsLE_trans {a b c : SecretOperationStats} (h1 : StatsLE a b)
    (h2 : StatsLE b c) : StatsLE a c :=
  ⟨le_trans h1.1 h2.1, le_trans h1.2.1 h2.2.1, le_trans h1.2.2 h2.2.2⟩

theorem syncLoop_stats (fl : SyncFlags) (mutOk : MutOracle) (ex : ExistingSecrets) :
    ∀ (ks : List (String × String)) (stats : SecretOperationStats)
      (st : ConfirmState) (stdin : List String),
      StatsLE stats ((setGitHubSecretsLoop fl mutOk ex ks stats st stdin).1).stats ∧
      ((setGitHubSecretsLoop fl mutOk ex ks stats st stdin).1).stats.failed =
        stats.failed +
          (if ((setGitHubSecretsLoop fl mutOk ex ks stats st stdin).1).err.isSome
           then 1 else 0) := by
  intro ks
  induction ks with
  | nil =>
    intro stats st stdin
    exact ⟨statsLE_refl stats, by simp [setGitHubSecretsLoop]⟩
  | cons kv rest ih =>
    intro stats st stdin
    obtain ⟨k, v⟩ := kv
    rcases hstep : setGitHubSecretIfNeeded fl mutOk ex k v false st stdin
      with ⟨res, st1, in1⟩
    cases res with
    | none =>
      simp only [setGitHubSecretsLoop, hstep]
      exact ⟨statsLE_refl stats, by simp⟩
    | some r =>
      simp only [setGitHubSecretsLoop, hstep]
      cases hd : fl.dependabot with
      | false =>
        simp only [Bool.false_eq_true, if_false]
        obtain ⟨hle, hfail⟩ := ih (updateStats stats r) st1 in1
        refine ⟨statsLE_trans (statsLE_updateStats stats r) hle, ?_⟩
        rw [hfail, updateStats_failed]
      | true =>
        simp only [if_true]
        rcases hstep2 : setGitHubSecretIfNeeded fl mutOk ex k v true st1 in1
          with ⟨res2, st2, in2⟩
        cases res2 with
        | none =>
          simp only [hstep2]
          refine ⟨statsLE_updateStats stats r, ?_⟩
          simp [updateStats_failed]
        | some r2 =>
          simp only [hstep2]
          obtain ⟨hle, hfail⟩ :=
            ih (updateStats (updateStats stats r) r2) st2 in2
          refine ⟨statsLE_trans (statsLE_updateStats stats r)
            (statsLE_trans (statsLE_updateStats (updateStats stats r) r2) hle), ?_⟩
          rw [hfail, updateStats_failed, updateStats_failed]

/-- Claim C10: along the run, the create/update/skip counters only ever grow
and `Failed` changes only at the aborting step; a full run from zero ends
with `Failed = 1` exactly when an error is returned and `Failed = 0`
otherwise. -/
theorem C10_counters_monotone_failed_iff_error (fl : SyncFlags)
    (mutOk : MutOracle) (ex : ExistingSecrets) (ks : List (String × String))
    (stats : SecretOperationStats) (st : ConfirmState) (stdin : List String) :
    (StatsLE stats ((setGitHubSecretsLoop fl mutOk ex ks stats st stdin).1).stats ∧
      ((setGitHubSecretsLoop fl mutOk ex ks stats st stdin).1).stats.failed =
        stats.failed +
          (if ((setGitHubSecretsLoop fl mutOk ex ks stats st stdin).1).err.isSome
           then 1 else 0)) ∧
    (setGitHubSecrets fl mutOk ex ks stdin).stats.failed =
      (if (setGitHubSecrets fl mutOk ex ks stdin).err.isSome then 1 else 0) := by
  refine ⟨syncLoop_stats fl mutOk ex ks stats st stdin, ?_⟩
  have h := (syncLoop_stats fl mutOk ex ks ⟨0, 0, 0, 0⟩ ⟨false, false⟩ stdin).2
  unfold setGitHubSecrets
  rw [h]
  simp

/-! ## Abort-on-failure semantics of the synchronization loop -/

theorem syncLoop_append (fl : SyncFlags) (mutOk : MutOracle) (ex : ExistingSecrets) :
    ∀ (ks1 rest : List (String × String)) (stats : SecretOperationStats)
      (st : ConfirmState) (stdin : List String) (s1 : SecretOperationStats)
      (st1 : ConfirmState) (in1 : List String),
      setGitHubSecretsLoop fl mutOk ex ks1 stats st stdin = (⟨s1, none⟩, st1, in1) →
      setGitHubSecretsLoop fl mutOk ex (ks1 ++ rest) stats st stdin =
        setGitHubSecretsLoop fl mutOk ex rest s1 st1 in1 := by
  intro ks1
  induction ks1 with
  | nil =>
    intro rest stats st stdin s1 st1 in1 h
    simp only [setGitHubSecretsLoop, Prod.mk.injEq, SyncResult.mk.injEq] at h
    obtain ⟨⟨h1, _⟩, h2, h3⟩ := h
    rw [List.nil_append, h1, h2, h3]
  | cons kv ks1 ih =>
    intro rest stats st stdin s1 st1 in1 h
    obtain ⟨k, v⟩ := kv
    rcases hstep : setGitHubSecretIfNeeded fl mutOk ex k v false st stdin
      with ⟨res, sta, ina⟩
    cases res with
    | none =>
      rw [show setGitHubSecretsLoop fl mutOk ex ((k, v) :: ks1) stats st stdin
          = (⟨{ stats with failed := stats.failed + 1 }, some k⟩, sta, ina) by
        simp only [setGitHubSecretsLoop, hstep]] at h
      simp at h
    | some r =>
      cases hd : fl.dependabot with
      | false =>
        rw [show setGitHubSecretsLoop fl mutOk ex ((k, v) :: ks1) stats st stdin
            = setGitHubSecretsLoop fl mutOk ex ks1 (updateStats stats r) sta ina by
          simp only [setGitHubSecretsLoop, hstep, hd, Bool.false_eq_true, if_false]] at h
        rw [List.cons_append,
          show setGitHubSecretsLoop fl mutOk ex ((k, v) :: (ks1 ++ rest)) stats st stdin
            = setGitHubSecretsLoop fl mutOk ex (ks1 ++ rest) (updateStats stats r) sta ina by
          simp only [setGitHubSecretsLoop, hstep, hd, Bool.false_eq_true, if_false]]
        exact ih rest _ _ _ _ _ _ h
      | true =>
        rcases hstep2 : setGitHubSecretIfNeeded fl mutOk ex k v true sta ina
          with ⟨res2, stb, inb⟩
        cases res2 with
        | none =>
          rw [show setGitHubSecretsLoop fl mutOk ex ((k, v) :: ks1) stats st stdin
              = (⟨{ updateStats stats r with
                    failed := (updateStats stats r).failed + 1 }, some k⟩, stb, inb) by
            simp only [setGitHubSecretsLoop, hstep, hd, if_true, hstep2]] at h
          simp at h
        | some r2 =>
          rw [show setGitHubSecretsLoop fl mutOk ex ((k, v) :: ks1) stats st stdin
              = setGitHubSecretsLoop fl mutOk ex ks1
                  (updateStats (updateStats stats r) r2) stb inb by
            simp only [setGitHubSecretsLoop, hstep, hd, if_true, hstep2]] at h
          rw [List.cons_append,
            show setGitHubSecretsLoop fl mutOk ex ((k, v) :: (ks1 ++ rest)) stats st stdin
              = setGitHubSecretsLoop fl mutOk ex (ks1 ++ rest)
                  (updateStats (updateStats stats r) r2) stb inb by
            simp only [setGitHubSecretsLoop, hstep, hd, if_true, hstep2]]
          exact ih rest _ _ _ _ _ _ h

/-- Counterexample to claim C2: with two keys where the second mutation
fails, the run returns the error together with the accumulated statistics
(`created = 1`, `failed = 1`) — the statistics object is not withheld on the
error path. -/
theorem C2_stats_alongside_error_counterexample :
    (setGitHubSecrets flagsDefault mutFailB existNone
        [("A", "x"), ("B", "y")] []).err = some "B" ∧
    (setGitHubSecrets flagsDefault mutFailB existNone
        [("A", "x"), ("B", "y")] []).stats = ⟨1, 0, 0, 1⟩ ∧
    (⟨1, 0, 0, 1⟩ : SecretOperationStats) ≠ ⟨0, 0, 0, 0⟩ :=
  ⟨by decide, by decide, by decide⟩

/-- Amended claim C2: the first failing mutation aborts the run immediately
(the keys after it are never examined) and the function returns the error
together with the statistics accumulated so far, `Failed` incremented once;
the CLI caller then discards that statistics object. -/
theorem C2_abort_immediately_stats_returned (fl : SyncFlags) (mutOk : MutOracle)
    (ex : ExistingSecrets) (ks1 : List (String × String)) (k v : String)
    (ks2 : List (String × String)) (stdin : List String)
    (s1 : SecretOperationStats) (st1 : ConfirmState) (in1 : List String)
    (st2 : ConfirmState) (in2 : List String)
    (h1 : setGitHubSecretsLoop fl mutOk ex ks1 ⟨0, 0, 0, 0⟩ ⟨false, false⟩ stdin
      = (⟨s1, none⟩, st1, in1))
    (h2 : setGitHubSecretIfNeeded fl mutOk ex k v false st1 in1 = (none, st2, in2)) :
    setGitHubSecrets fl mutOk ex (ks1 ++ (k, v) :: ks2) stdin =
      ⟨{ s1 with failed := s1.failed + 1 }, some k⟩ := by
  unfold setGitHubSecrets
  rw [syncLoop_append fl mutOk ex ks1 ((k, v) :: ks2) _ _ _ _ _ _ h1]
  simp only [setGitHubSecretsLoop, h2]

/-- Witness for the amended C2: key `A` succeeds, `B` fails, `C` is never
reached. -/
theorem C2_abort_immediately_stats_returned_witness :
    setGitHubSecrets flagsDefault mutFailB existNone
      ([("A", "x")] ++ ("B", "y") :: [("C", "z")]) [] =
      ⟨{ (⟨1, 0, 0, 0⟩ : SecretOperationStats) with failed := 0 + 1 }, some "B"⟩ :=
  C2_abort_immediately_stats_returned flagsDefault mutFailB existNone
    [("A", "x")] "B" "y" [("C", "z")] [] ⟨1, 0, 0, 0⟩ ⟨false, false⟩ []
    ⟨false, false⟩ [] (by decide) (by decide)

/-! ## Confirmation state machine: sticky global decisions -/

theorem promptLoop_mono :
    ∀ (l : List String) (st : ConfirmState) {b : Bool} {st' : ConfirmState}
      {l' : List String}, promptLoop st l = (b, st', l') →
      (st.yesToAll = true → st'.yesToAll = true) ∧
      (st.noToAll = true → st'.noToAll = true) := by
  intro l
  induction l with
  | nil =>
    intro st b st' l' h
    injection h with hb hrest
    injection hrest with hst hl
    rw [← hst]
    exact ⟨id, id⟩
  | cons r rest ih =>
    intro st b st' l' h
    simp only [promptLoop] at h
    split_ifs at h
    all_goals first
      | (injection h with hb hrest
         injection hrest with hst hl
         rw [← hst]
         first
           | exact ⟨id, id⟩
           | exact ⟨fun _ => rfl, fun hn => hn⟩
           | exact ⟨fun hy => hy, fun _ => rfl⟩)
      | exact ih st h

theorem promptForOverwrite_mono (dr : Bool) (st : ConfirmState)
    (stdin : List String) {b : Bool} {st' : ConfirmState} {in' : List String}
    (h : promptForOverwrite dr st stdin = (b, st', in')) :
    (st.yesToAll = true → st'.yesToAll = true) ∧
    (st.noToAll = true → st'.noToAll = true) := by
  unfold promptForOverwrite at h
  split_ifs at h
  all_goals first
    | (injection h with hb hrest
       injection hrest with hst hl
       rw [← hst]
       exact ⟨id, id⟩)
    | exact promptLoop_mono stdin st h

theorem ifNeeded_state_mono (fl : SyncFlags) (mutOk : MutOracle)
    (ex : ExistingSecrets) (k v : String) (d : Bool) (st : ConfirmState)
    (stdin : List String) {res : Option String} {st' : ConfirmState}
    {in' : List String}
    (h : setGitHubSecretIfNeeded fl mutOk ex k v d st stdin = (res, st', in')) :
    (st.yesToAll = true → st'.yesToAll = true) ∧
    (st.noToAll = true → st'.noToAll = true) := by
  rcases hp : promptForOverwrite fl.dryRun st stdin with ⟨pb, pst, pin⟩
  have hpm := promptForOverwrite_mono fl.dryRun st stdin hp
  cases pb <;>
    simp only [setGitHubSecretIfNeeded, hp] at h <;>
    split_ifs at h <;>
    (injection h with hb hrest
     injection hrest with hst hl
     rw [← hst]) <;>
    first
      | exact ⟨id, id⟩
      | exact hpm

theorem syncLoop_state_mono (fl : SyncFlags) (mutOk : MutOracle)
    (ex : ExistingSecrets) :
    ∀ (ks : List (String × String)) (stats : SecretOperationStats)
      (st : ConfirmState) (stdin : List String),
      (st.yesToAll = true →
        ((setGitHubSecretsLoop fl mutOk ex ks stats st stdin).2.1).yesToAll = true) ∧
      (st.noToAll = true →
        ((setGitHubSecretsLoop fl mutOk ex ks stats st stdin).2.1).noToAll = true) := by
  intro ks
  induction ks with
  | nil => intro stats st stdin; exact ⟨id, id⟩
  | cons kv rest ih =>
    intro stats st stdin
    obtain ⟨k, v⟩ := kv
    rcases hstep : setGitHubSecretIfNeeded fl mutOk ex k v false st stdin
      with ⟨res, st1, in1⟩
    have hm1 := ifNeeded_state_mono fl mutOk ex k v false st stdin hstep
    cases res with
    | none =>
      simp only [setGitHubSecretsLoop, hstep]
      exact hm1
    | some r =>
      simp only [setGitHubSecretsLoop, hstep]
      cases hd : fl.dependabot with
      | false =>
        simp only [Bool.false_eq_true, if_false]
        have hm2 := ih (updateStats stats r) st1 in1
        exact ⟨fun hy => hm2.1 (hm1.1 hy), fun hn => hm2.2 (hm1.2 hn)⟩
      | true =>
        simp only [if_true]
        rcases hstep2 : setGitHubSecretIfNeeded fl mutOk ex k v true st1 in1
          with ⟨res2, st2, in2⟩
        have hm2 := ifNeeded_state_mono fl mutOk ex k v true st1 in1 hstep2
        cases res2 with
        | none =>
          simp only [hstep2]
          exact ⟨fun hy => hm2.1 (hm1.1 hy), fun hn => hm2.2 (hm1.2 hn)⟩
        | some r2 =>
          simp only [hstep2]
          have hm3 := ih (updateStats (updateStats stats r) r2) st2 in2
          exact ⟨fun hy => hm3.1 (hm2.1 (hm1.1 hy)),
            fun hn => hm3.2 (hm2.2 (hm1.2 hn))⟩

/-- Claim C5: once `yesToAll` holds every prompt auto-answers yes without
touching the input (symmetrically `noToAll` auto-answers no); the loop never
resets either flag; and in the concrete two-pre-existing-keys scenario with
the single response `ya`, both keys are updated with no further prompt
(`updated = 2`, `skipped = 0`). -/
theorem C5_confirm_all_sticky :
    (∀ (dr : Bool) (st : ConfirmState) (stdin : List String),
      st.yesToAll = true → promptForOverwrite dr st stdin = (true, st, stdin)) ∧
    (∀ (dr : Bool) (st : ConfirmState) (stdin : List String),
      st.yesToAll = false → st.noToAll = true →
        promptForOverwrite dr st stdin = (false, st, stdin)) ∧
    (∀ (fl : SyncFlags) (mutOk : MutOracle) (ex : ExistingSecrets)
      (ks : List (String × String)) (stats : SecretOperationStats)
      (st : ConfirmState) (stdin : List String),
      (st.yesToAll = true →
        ((setGitHubSecretsLoop fl mutOk ex ks stats st stdin).2.1).yesToAll = true) ∧
      (st.noToAll = true →
        ((setGitHubSecretsLoop fl mutOk ex ks stats st stdin).2.1).noToAll = true)) ∧
    setGitHubSecrets flagsConfirm (fun _ _ _ => true) existAll
      [("K1", "v1"), ("K2", "v2")] ["ya"] = ⟨⟨0, 2, 0, 0⟩, none⟩ := by
  refine ⟨?_, ?_, syncLoop_state_mono, by decide⟩
  · intro dr st stdin hy
    unfold promptForOverwrite
    rw [if_pos hy]
  · intro dr st stdin hy hn
    unfold promptForOverwrite
    rw [if_neg (by rw [hy]; exact Bool.false_ne_true), if_pos hn]

/-- Witness for C5: a sticky `yesToAll` state answers yes without reading
input. -/
theorem C5_confirm_all_sticky_witness :
    promptForOverwrite false ⟨true, false⟩ ["n"] = (true, ⟨true, false⟩, ["n"]) :=
  C5_confirm_all_sticky.1 false ⟨true, false⟩ ["n"] rfl

/-! ## Dry run versus real run -/

theorem prompt_dry_yes (stD : ConfirmState) (inD : List String)
    (hD : stD.noToAll = false) :
    promptForOverwrite true stD inD = (true, stD, inD) := by
  unfold promptForOverwrite
  by_cases hy : stD.yesToAll = true
  · rw [if_pos hy]
  · rw [if_neg hy, if_neg (by rw [hD]; exact Bool.false_ne_true), if_pos rfl]

theorem prompt_real_yes (st : ConfirmState) (stdin : List String)
    (hInv : AllYesInv st stdin) :
    ∃ st' in', promptForOverwrite false st stdin = (true, st', in') ∧
      AllYesInv st' in' := by
  obtain ⟨hno, hrest⟩ := hInv
  by_cases hy : st.yesToAll = true
  · refine ⟨st, stdin, ?_, hno, Or.inl hy⟩
    unfold promptForOverwrite
    rw [if_pos hy]
  · obtain ⟨rest, hr⟩ := hrest.resolve_left hy
    refine ⟨{ st with yesToAll := true }, rest, ?_, hno, Or.inl rfl⟩
    unfold promptForOverwrite
    rw [if_neg hy, if_neg (by rw [hno]; exact Bool.false_ne_true),
      if_neg Bool.false_ne_true, hr]
    simp only [promptLoop]
    rw [if_neg (by decide), if_neg (by decide), if_pos (by decide)]

theorem ifNeeded_dry_real_agree (fl : SyncFlags) (mutOk : MutOracle)
    (ex : ExistingSecrets) (hm : ∀ k v d, mutOk k v d = true) (k v : String)
    (d : Bool) (stD : ConfirmState) (inD : List String)
    (hD : stD.noToAll = false) (st : ConfirmState) (stdin : List String)
    (hInv : AllYesInv st stdin) :
    ∃ (r : String) (st' : ConfirmState) (in' : List String),
      setGitHubSecretIfNeeded { fl with dryRun := true } mutOk ex k v d stD inD
        = (some r, stD, inD) ∧
      setGitHubSecretIfNeeded { fl with dryRun := false } mutOk ex k v d st stdin
        = (some r, st', in') ∧
      AllYesInv st' in' := by
  obtain ⟨pst, pin, hreal, hInv'⟩ := prompt_real_yes st stdin hInv
  by_cases hex : (if d then ex.dependabot else ex.repository) k
  · by_cases hskip : fl.skipExisting = true
    · refine ⟨"skipped", st, stdin, ?_, ?_, hInv⟩ <;>
        (unfold setGitHubSecretIfNeeded
         rw [if_pos hex, if_pos hskip])
    · by_cases hconf : fl.confirmOverwrite = true
      · refine ⟨"updated", pst, pin, ?_, ?_, hInv'⟩
        · unfold setGitHubSecretIfNeeded
          rw [if_pos hex, if_neg hskip, if_pos hconf]
          show (match promptForOverwrite true stD inD with
            | (false, st2, stdin2) => (some "skipped", st2, stdin2)
            | (true, st2, stdin2) =>
              if setGitHubSecret true mutOk k v d then (some "updated", st2, stdin2)
              else (none, st2, stdin2)) = (some "updated", stD, inD)
          rw [prompt_dry_yes stD inD hD]
          simp [setGitHubSecret]
        · unfold setGitHubSecretIfNeeded
          rw [if_pos hex, if_neg hskip, if_pos hconf]
          show (match promptForOverwrite false st stdin with
            | (false, st2, stdin2) => (some "skipped", st2, stdin2)
            | (true, st2, stdin2) =>
              if setGitHubSecret false mutOk k v d then (some "updated", st2, stdin2)
              else (none, st2, stdin2)) = (some "updated", pst, pin)
          rw [hreal]
          simp [setGitHubSecret, hm]
      · refine ⟨"updated", st, stdin, ?_, ?_, hInv⟩ <;>
          (unfold setGitHubSecretIfNeeded
           rw [if_pos hex, if_neg hskip, if_neg hconf]
           simp [setGitHubSecret, hm])
  · refine ⟨"created", st, stdin, ?_, ?_, hInv⟩ <;>
      (unfold setGitHubSecretIfNeeded
       rw [if_neg hex]
       simp [setGitHubSecret, hm])

theorem syncLoop_dry_real_agree (fl : SyncFlags) (mutOk : MutOracle)
    (ex : ExistingSecrets) (hm : ∀ k v d, mutOk k v d = true) :
    ∀ (ks : List (String × String)) (stats : SecretOperationStats)
      (stD : ConfirmState) (inD : List String) (st : ConfirmState)
      (stdin : List String), stD.noToAll = false → AllYesInv st stdin →
      (setGitHubSecretsLoop { fl with dryRun := true } mutOk ex ks stats stD inD).1 =
        (setGitHubSecretsLoop { fl with dryRun := false } mutOk ex ks stats st stdin).1 := by
  intro ks
  induction ks with
  | nil => intros; rfl
  | cons kv rest ih =>
    intro stats stD inD st stdin hD hInv
    obtain ⟨k, v⟩ := kv
    obtain ⟨r, st', in', hdry, hreal, hInv'⟩ :=
      ifNeeded_dry_real_agree fl mutOk ex hm k v false stD inD hD st stdin hInv
    simp only [setGitHubSecretsLoop, hdry, hreal]
    by_cases hd : fl.dependabot = true
    · rw [if_pos hd, if_pos hd]
      obtain ⟨r2, st2, in2, hdry2, hreal2, hInv2⟩ :=
        ifNeeded_dry_real_agree fl mutOk ex hm k v true stD inD hD st' in' hInv'
      simp only [hdry2, hreal2]
      exact ih (updateStats (updateStats stats r) r2) stD inD st2 in2 hD hInv2
    · rw [if_neg hd, if_neg hd]
      exact ih (updateStats stats r) stD inD st' in' hD hInv' 

/-- Claim C4: with all mutations succeeding and every `ConfirmEach` decision
yes (the single sticky response `ya` suffices), a dry run returns exactly the
same statistics (and error status) as a real run over the same secrets,
remote state, overwrite policy, and alternate-scope setting. -/
theorem C4_dry_run_stats_faithful (fl : SyncFlags) (mutOk : MutOracle)
    (ex : ExistingSecrets) (secrets : List (String × String))
    (inD rest : List String) (hm : ∀ k v d, mutOk k v d = true) :
    setGitHubSecrets { fl with dryRun := true } mutOk ex secrets inD =
      setGitHubSecrets { fl with dryRun := false } mutOk ex secrets ("ya" :: rest) := by
  unfold setGitHubSecrets
  exact syncLoop_dry_real_agree fl mutOk ex hm secrets ⟨0, 0, 0, 0⟩
    ⟨false, false⟩ inD ⟨false, false⟩ ("ya" :: rest) rfl ⟨rfl, Or.inr ⟨rest, rfl⟩⟩

/-- Witness for C4: one pre-existing key under `ConfirmEach`. -/
theorem C4_dry_run_stats_faithful_witness :
    setGitHubSecrets { flagsConfirm with dryRun := true } (fun _ _ _ => true)
      existAll [("K", "v")] [] =
      setGitHubSecrets { flagsConfirm with dryRun := false } (fun _ _ _ => true)
        existAll [("K", "v")] ("ya" :: []) :=
  C4_dry_run_stats_faithful flagsConfirm (fun _ _ _ => true) existAll
    [("K", "v")] [] [] (fun _ _ _ => rfl)

end Feller
